import Mathlib

/-!
Verification of the sardine timing and scheduling core.

The clock model is a shallow embedding of `sardine/base/clock.py`
(class `BaseClock`), the scheduler model embeds
`sardine/scheduler/scheduler.py` (class `Scheduler`).  All time values
are modelled as exact rationals; the Python float modulus `a % b`
(which, for a positive divisor, returns `a - b * floor(a / b)`) is
`pymod` below.
-/

namespace Sardine

/-- Python float modulus for rationals: `a % b = a - b * floor(a / b)`.
For a positive divisor this lands in `[0, b)`, exactly like the
CPython `%` operator on floats. -/
def pymod (a b : ℚ) : ℚ := a - b * ⌊a / b⌋

/-- State of a `BaseClock` together with the fish-bowl `Time` values it
reads through `self.env.time`.  Fields mirror the attributes used by
`BaseClock.time`, `BaseClock.shifted_time` and `BaseClock.hook`:
`tempo`, `internal_time`, `internal_origin`, `_time_is_origin`,
`env.time.origin` and `env.time.shift`. -/
structure ClockState where
  tempo : ℚ
  internal_time : Option ℚ
  internal_origin : Option ℚ
  time_is_origin : Bool
  env_origin : ℚ
  env_shift : ℚ
deriving DecidableEq, Repr

namespace ClockState

/-- `BaseClock.beat_duration` is abstract in `BaseClock`; its docstring
and the spec data model fix it as `60 / tempo`, which is what the
concrete clocks implement.  Modelled from the spec for the abstract
property: `beat_duration = 60 / tempo`. -/
def beat_duration (s : ClockState) : ℚ := 60 / s.tempo

/-- `BaseClock.time`: `Time.origin` while `_time_is_origin` is latched
or either internal value is `None`; otherwise
`internal_time - internal_origin + Time.origin`. -/
def time (s : ClockState) : ℚ :=
  if s.time_is_origin then s.env_origin
  else
    match s.internal_time, s.internal_origin with
    | some i_time, some i_origin => i_time - i_origin + s.env_origin
    | _, _ => s.env_origin

/-- `BaseClock.shifted_time`: `self.time + self.env.time.shift`. -/
def shifted_time (s : ClockState) : ℚ := s.time + s.env_shift

/-- `BaseClock.get_beat_time(n_beats, sync)`:
`interval = beat_duration * n_beats`; `0` when `interval <= 0`;
`interval` when not syncing; otherwise
`interval - shifted_time % interval`. -/
def get_beat_time (s : ClockState) (n_beats : ℚ) (sync : Bool) : ℚ :=
  let interval := s.beat_duration * n_beats
  if interval ≤ 0 then 0
  else if !sync then interval
  else interval - pymod s.shifted_time interval

/-- The bowl lifecycle events a clock reacts to in `BaseClock.hook`. -/
inductive Event where
  | start
  | pause
  | resume
  | stop
deriving DecidableEq, Repr

/-- `BaseClock.hook`: on `start`/`resume` copy `internal_time` into
`internal_origin` and clear `_time_is_origin`; on `pause`/`stop` latch
`Time.origin` to the current `time` and set `_time_is_origin`.  (Task
spawning and cancellation have no effect on these fields.) -/
def hook (s : ClockState) (e : Event) : ClockState :=
  match e with
  | .start | .resume =>
      { s with internal_origin := s.internal_time, time_is_origin := false }
  | .pause =>
      { s with env_origin := s.time, time_is_origin := true }
  | .stop =>
      { s with env_origin := s.time, time_is_origin := true }

/-- The clock task advancing `internal_time` to a new reading (this is
the only attribute `run()` keeps updating). -/
def withInternalTime (s : ClockState) (t : Option ℚ) : ClockState :=
  { s with internal_time := t }

/-- `BaseClock._dispatch_tempo_update(old, new)`: the list of
`tempo_update` events dispatched on the bowl, given whether `self.env`
is present.  The code dispatches exactly when
`self.env is not None and old != new`. -/
def dispatch_tempo_update (env_present : Bool) (old nw : ℚ) : List (ℚ × ℚ) :=
  if env_present = true ∧ old ≠ nw then [(old, nw)] else []

/-- Modelled from the spec: the tempo setter of the concrete clock
(not under src/) captures the old tempo, assigns the new tempo, then
calls `_dispatch_tempo_update(old, new)`.  Returns the updated state
and the dispatched events. -/
def set_tempo (env_present : Bool) (s : ClockState) (nw : ℚ) :
    ClockState × List (ℚ × ℚ) :=
  ({ s with tempo := nw }, dispatch_tempo_update env_present s.tempo nw)

end ClockState

/-! Basic facts about `pymod`. -/

theorem pymod_nonneg (a : ℚ) {b : ℚ} (hb : 0 < b) : 0 ≤ pymod a b := by
  have h := Int.floor_le (a / b)
  have h2 : b * (⌊a / b⌋ : ℚ) ≤ b * (a / b) := by
    exact mul_le_mul_of_nonneg_left h (le_of_lt hb)
  have h3 : b * (a / b) = a := by field_simp
  unfold pymod
  nlinarith

theorem pymod_lt (a : ℚ) {b : ℚ} (hb : 0 < b) : pymod a b < b := by
  have h := Int.lt_floor_add_one (a / b)
  have h2 : b * (a / b) < b * ((⌊a / b⌋ : ℚ) + 1) :=
    mul_lt_mul_of_pos_left h hb
  have h3 : b * (a / b) = a := by field_simp
  unfold pymod
  nlinarith

theorem pymod_add_floor_mul (a b : ℚ) : a = b * ⌊a / b⌋ + pymod a b := by
  unfold pymod; ring

theorem pymod_eq_zero_of_mul (k : ℤ) {b : ℚ} (hb : b ≠ 0) :
    pymod (b * k) b = 0 := by
  unfold pymod
  rw [mul_comm b (k : ℚ), mul_div_assoc, div_self hb, mul_one, Int.floor_intCast]
  ring

/-! ## Scheduler model

`Scheduler` (from `sardine/scheduler/scheduler.py`) holds
`_runners : dict[str, AsyncRunner]`.  `AsyncRunner` itself is not
under src/; the scheduler only reads `runner.name`,
`runner.is_running()` and `runner.scheduler`, assigns
`runner.scheduler`, and calls `runner.start()`, `runner.stop()`,
`runner.reload()` and `runner.allow_interval_correction()`.  We model
runner objects by identity: a heap maps a runner id to its observable
data, and method calls on runners are recorded as actions.  Schedulers
are also identified by ids; the scheduler under study is `self`. -/

/-- The attributes of an `AsyncRunner` the scheduler reads or writes:
`name`, `is_running()`, and the `scheduler` back-reference (an optional
scheduler id). -/
structure RunnerData where
  name : String
  running : Bool
  sched : Option Nat
deriving DecidableEq, Repr

/-- A runner method invocation performed by the scheduler. -/
inductive RAction where
  | startCall (rid : Nat)
  | stopCall (rid : Nat)
  | reloadCall (rid : Nat)
  | correctionCall (rid : Nat)
deriving DecidableEq, Repr

/-- The world a scheduler acts on: a heap of runner objects (by id)
and the scheduler's own `_runners` mapping, an insertion-ordered
association list from name to runner id, mirroring a Python dict. -/
structure World where
  heap : Nat → RunnerData
  map : List (String × Nat)

/-- Python dict read `m.get(k)`. -/
def mapGet (m : List (String × Nat)) (k : String) : Option Nat :=
  match m with
  | [] => none
  | p :: rest => if p.1 = k then some p.2 else mapGet rest k

/-- Python dict assignment `m[k] = v`: update in place if the key
exists (keeping its position), else append. -/
def mapSet (m : List (String × Nat)) (k : String) (v : Nat) :
    List (String × Nat) :=
  if (mapGet m k).isSome then
    m.map (fun p => if p.1 = k then (k, v) else p)
  else m ++ [(k, v)]

/-- Python dict deletion `del m[k]`. -/
def mapDel (m : List (String × Nat)) (k : String) : List (String × Nat) :=
  m.filter (fun p => p.1 ≠ k)

/-- The result of a scheduler operation: the new world, the runner
method calls made, and the `ValueError` message when one was raised. -/
structure SchedResult where
  world : World
  calls : List RAction
  err : Option String

/-- The guard shared by `start_runner` and `stop_runner`:
`runner.is_running() and runner.scheduler is not None and
runner.scheduler is not self`. -/
def crossSched (self : Nat) (r : RunnerData) : Bool :=
  r.running && r.sched.isSome && decide (r.sched ≠ some self)

/-- The guard of the second check in `start_runner`: `old` is the map
entry under `runner.name`, and `old is not None and old is not runner`. -/
def nameConflict (w : World) (rid : Nat) : Bool :=
  match mapGet w.map (w.heap rid).name with
  | some v => decide (v ≠ rid)
  | none => false

/-- `Scheduler.start_runner(runner)`: raise `ValueError` when the
runner is running on another scheduler, or a different runner already
holds its name; otherwise insert it in `_runners`, set
`runner.scheduler = self`, and call `runner.start()`. -/
def start_runner (self : Nat) (w : World) (rid : Nat) : SchedResult :=
  let r := w.heap rid
  if crossSched self r then
    ⟨w, [], some "running on another scheduler"⟩
  else if nameConflict w rid then
    ⟨w, [], some "a different runner already exists with the name"⟩
  else
    ⟨{ heap := fun i => if i = rid then { w.heap i with sched := some self }
                        else w.heap i,
       map := mapSet w.map r.name rid },
     [RAction.startCall rid], none⟩

/-- `Scheduler.stop_runner(runner)`: raise `ValueError` when the
runner is running on another scheduler; otherwise call `runner.stop()`
and delete the entry under `runner.name` exactly when that entry is
the runner itself. -/
def stop_runner (self : Nat) (w : World) (rid : Nat) : SchedResult :=
  let r := w.heap rid
  if crossSched self r then
    ⟨w, [], some "running on another scheduler"⟩
  else
    ⟨{ w with map := if mapGet w.map r.name = some rid
                     then mapDel w.map r.name else w.map },
     [RAction.stopCall rid], none⟩

/-- `Scheduler.get_runner(name)`: `self._runners.get(name)`. -/
def get_runner (w : World) (name : String) : Option Nat :=
  mapGet w.map name

/-- The loop body of `Scheduler.reset`: `stop_runner` on each runner of
a snapshot of `_runners.values()`, propagating the first error. -/
def stopAll (self : Nat) (rids : List Nat) (w : World) (acc : List RAction) :
    SchedResult :=
  match rids with
  | [] => ⟨w, acc, none⟩
  | rid :: rest =>
    let res := stop_runner self w rid
    match res.err with
    | some e => ⟨res.world, acc ++ res.calls, some e⟩
    | none => stopAll self rest res.world (acc ++ res.calls)

/-- `Scheduler.reset()`: `stop_runner` on every runner in
`tuple(self._runners.values())`. -/
def reset (self : Nat) (w : World) : SchedResult :=
  stopAll self (w.map.map Prod.snd) w []

/-- `Scheduler._reload_runners(interval_correction)`: call `reload()`
on every runner in `_runners`, and `allow_interval_correction()` on
each when requested. -/
def reload_runners (w : World) (interval_correction : Bool) : List RAction :=
  (w.map.map Prod.snd).flatMap (fun rid =>
    RAction.reloadCall rid ::
      (if interval_correction then [RAction.correctionCall rid] else []))

/-- `Scheduler.hook(event)`: on `tempo_update`,
`_reload_runners(interval_correction=True)`; nothing otherwise. -/
def schedHook (w : World) (event : String) : List RAction :=
  if event = "tempo_update" then reload_runners w true else []

/-! ## Clock theorems -/

/-- A concrete clock state with `tempo = 60` (so `beat_duration = 1`)
and `shifted_time = 3/10`, realising the spec scenario. -/
def exClock : ClockState :=
  { tempo := 60, internal_time := some (3/10), internal_origin := some 0,
    time_is_origin := false, env_origin := 0, env_shift := 0 }

/-- C1: with `tempo > 0`, `get_beat_time(n, sync)` returns `0` when
`n ≤ 0`; returns `interval = beat_duration * n` exactly when `sync` is
false; returns `interval - (shifted_time mod interval)` when `sync` is
true; and on the concrete state with `beat_duration = 1`,
`shifted_time = 3/10`, it returns `7/10` with sync and `1` without. -/
theorem get_beat_time_spec (s : ClockState) (n : ℚ) (sync : Bool)
    (htempo : 0 < s.tempo) :
    (n ≤ 0 → s.get_beat_time n sync = 0) ∧
    (0 < n → sync = false → s.get_beat_time n sync = s.beat_duration * n) ∧
    (0 < n → sync = true →
      s.get_beat_time n sync =
        s.beat_duration * n - pymod s.shifted_time (s.beat_duration * n)) ∧
    (exClock.get_beat_time 1 true = 7/10 ∧ exClock.get_beat_time 1 false = 1) := by
  have hbd : 0 < s.beat_duration := by
    unfold ClockState.beat_duration
    positivity
  refine ⟨?_, ?_, ?_, ?_, ?_⟩
  · intro hn
    have hint : s.beat_duration * n ≤ 0 := mul_nonpos_of_nonneg_of_nonpos hbd.le hn
    simp [ClockState.get_beat_time, hint]
  · intro hn hsync
    have hint : ¬ s.beat_duration * n ≤ 0 := not_le.mpr (mul_pos hbd hn)
    simp [ClockState.get_beat_time, hint, hsync]
  · intro hn hsync
    have hint : ¬ s.beat_duration * n ≤ 0 := not_le.mpr (mul_pos hbd hn)
    simp [ClockState.get_beat_time, hint, hsync]
  · norm_num [ClockState.get_beat_time, ClockState.beat_duration,
      ClockState.shifted_time, ClockState.time, exClock, pymod]
  · norm_num [ClockState.get_beat_time, ClockState.beat_duration,
      ClockState.shifted_time, ClockState.time, exClock, pymod]

/-- Witness for C1 at `exClock`, `n = 1`, both sync modes. -/
theorem get_beat_time_spec_witness :
    exClock.get_beat_time 1 true = exClock.beat_duration * 1 -
      pymod exClock.shifted_time (exClock.beat_duration * 1) :=
  (get_beat_time_spec exClock 1 true (by norm_num [exClock])).2.2.1
    (by norm_num) rfl

/-- C2: `time` equals `internal_time - internal_origin + Time.origin`
when the clock is not frozen and both internal values are set, and
`Time.origin` otherwise. -/
theorem time_spec (s : ClockState) :
    (s.time_is_origin = false →
      ∀ i_time i_origin : ℚ, s.internal_time = some i_time →
        s.internal_origin = some i_origin →
        s.time = i_time - i_origin + s.env_origin) ∧
    ((s.time_is_origin = true ∨ s.internal_time = none ∨
        s.internal_origin = none) →
      s.time = s.env_origin) := by
  constructor
  · intro hfrozen i_time i_origin ht ho
    simp [ClockState.time, hfrozen, ht, ho]
  · intro h
    rcases h with h | h | h
    · simp [ClockState.time, h]
    · cases hf : s.time_is_origin <;>
        cases ho : s.internal_origin <;>
          simp [ClockState.time, h, hf, ho]
    · cases hf : s.time_is_origin <;>
        cases ht : s.internal_time <;>
          simp [ClockState.time, h, hf, ht]

/-- Witness for C2 at `exClock`: not frozen, internals `3/10` and `0`. -/
theorem time_spec_witness : exClock.time = 3/10 - 0 + 0 :=
  (time_spec exClock).1 rfl (3/10) 0 rfl rfl

/-- C4: from a running state (not frozen), `pause` freezes `time` at
its current value, every read during the pause (with the internal time
advanced arbitrarily) returns that value, and the first read after
`resume` still returns it. -/
theorem pause_resume_time_spec (s : ClockState) (u : Option ℚ)
    (_hrun : s.time_is_origin = false) :
    ((s.hook .pause).time = s.time) ∧
    (((s.hook .pause).withInternalTime u).time = s.time) ∧
    ((((s.hook .pause).withInternalTime u).hook .resume).time = s.time) := by
  refine ⟨?_, ?_, ?_⟩
  · simp [ClockState.hook, ClockState.time]
  · simp [ClockState.hook, ClockState.withInternalTime, ClockState.time]
  · cases u <;>
      simp [ClockState.hook, ClockState.withInternalTime, ClockState.time]

/-- Witness for C4 at `exClock` with the internal time advanced to `5`
during the pause. -/
theorem pause_resume_time_spec_witness :
    (((exClock.hook .pause).withInternalTime (some 5)).hook .resume).time =
      exClock.time :=
  (pause_resume_time_spec exClock (some 5) rfl).2.2

/-- C7: with the bowl present, assigning a tempo dispatches a single
`tempo_update(old, new)` event exactly when the old and new tempo
differ, and assigning the current tempo dispatches nothing. -/
theorem tempo_update_dispatch_spec (s : ClockState) (nw : ℚ) :
    ((ClockState.set_tempo true s nw).2 = [(s.tempo, nw)] ↔ s.tempo ≠ nw) ∧
    ((ClockState.set_tempo true s nw).2 = [] ↔ s.tempo = nw) ∧
    (ClockState.set_tempo true s s.tempo).2 = [] ∧
    (ClockState.set_tempo true s nw).1.tempo = nw := by
  by_cases h : s.tempo = nw <;>
    simp [ClockState.set_tempo, ClockState.dispatch_tempo_update, h]

/-- C8: when `beat_duration * n > 0`, the synced wait plus the current
shifted time is an exact integer multiple of `beat_duration * n`. -/
theorem get_beat_time_sync_multiple (s : ClockState) (n : ℚ)
    (h : 0 < s.beat_duration * n) :
    ∃ k : ℤ, s.get_beat_time n true + s.shifted_time =
      (s.beat_duration * n) * k := by
  refine ⟨⌊s.shifted_time / (s.beat_duration * n)⌋ + 1, ?_⟩
  have hint : ¬ s.beat_duration * n ≤ 0 := not_le.mpr h
  simp only [ClockState.get_beat_time, hint, if_false, Bool.not_true,
    if_neg, pymod]
  push_cast
  ring

/-- Witness for C8 at `exClock`, `n = 1`. -/
theorem get_beat_time_sync_multiple_witness :
    ∃ k : ℤ, exClock.get_beat_time 1 true + exClock.shifted_time =
      (exClock.beat_duration * 1) * k :=
  get_beat_time_sync_multiple exClock 1
    (by norm_num [exClock, ClockState.beat_duration])

/-- C10: when `beat_duration * n > 0`, the synced wait is strictly
positive and at most the interval, and when `shifted_time` is an exact
integer multiple of the interval the full interval is returned, so a
synced wait is never zero. -/
theorem get_beat_time_sync_pos (s : ClockState) (n : ℚ)
    (h : 0 < s.beat_duration * n) :
    0 < s.get_beat_time n true ∧
    s.get_beat_time n true ≤ s.beat_duration * n ∧
    (∀ k : ℤ, s.shifted_time = (s.beat_duration * n) * k →
      s.get_beat_time n true = s.beat_duration * n) := by
  have hint : ¬ s.beat_duration * n ≤ 0 := not_le.mpr h
  have hlt := pymod_lt s.shifted_time h
  have hge := pymod_nonneg s.shifted_time h
  have e : s.get_beat_time n true =
      s.beat_duration * n - pymod s.shifted_time (s.beat_duration * n) := by
    simp [ClockState.get_beat_time, hint]
  refine ⟨?_, ?_, ?_⟩
  · rw [e]; linarith
  · rw [e]; linarith
  · intro k hk
    rw [e, hk, pymod_eq_zero_of_mul k (ne_of_gt h)]
    ring

/-- Witness for C10 at `exClock`, `n = 1`. -/
theorem get_beat_time_sync_pos_witness :
    0 < exClock.get_beat_time 1 true ∧
    exClock.get_beat_time 1 true ≤ exClock.beat_duration * 1 :=
  ⟨(get_beat_time_sync_pos exClock 1
      (by norm_num [exClock, ClockState.beat_duration])).1,
   (get_beat_time_sync_pos exClock 1
      (by norm_num [exClock, ClockState.beat_duration])).2.1⟩

/-! ## Map lemmas -/

theorem mapGet_cons (p : String × Nat) (rest : List (String × Nat))
    (k : String) :
    mapGet (p :: rest) k = if p.1 = k then some p.2 else mapGet rest k := rfl

theorem mapGet_replace_self (m : List (String × Nat)) (k : String) (v : Nat)
    (h : (mapGet m k).isSome = true) :
    mapGet (m.map (fun p => if p.1 = k then (k, v) else p)) k = some v := by
  induction m with
  | nil => simp [mapGet] at h
  | cons p rest ih =>
    rw [List.map_cons]
    by_cases hp : p.1 = k
    · rw [if_pos hp, mapGet_cons]
      simp
    · rw [mapGet_cons, if_neg hp] at h
      rw [if_neg hp, mapGet_cons, if_neg hp]
      exact ih h

theorem mapGet_replace_other (m : List (String × Nat)) (k k' : String)
    (v : Nat) (h : k' ≠ k) :
    mapGet (m.map (fun p => if p.1 = k then (k, v) else p)) k' =
      mapGet m k' := by
  induction m with
  | nil => rfl
  | cons p rest ih =>
    rw [List.map_cons]
    by_cases hp : p.1 = k
    · have h2 : ¬ ((k, v).1 = k') := fun e => h e.symm
      have h3 : ¬ (p.1 = k') := by rw [hp]; exact fun e => h e.symm
      rw [if_pos hp, mapGet_cons, if_neg h2, mapGet_cons, if_neg h3, ih]
    · rw [if_neg hp, mapGet_cons, mapGet_cons, ih]

theorem mapGet_append_single_self (m : List (String × Nat)) (k : String)
    (v : Nat) (h : mapGet m k = none) :
    mapGet (m ++ [(k, v)]) k = some v := by
  induction m with
  | nil =>
    rw [List.nil_append, mapGet_cons]
    simp
  | cons p rest ih =>
    rw [mapGet_cons] at h
    by_cases hp : p.1 = k
    · rw [if_pos hp] at h
      exact absurd h (by simp)
    · rw [if_neg hp] at h
      rw [List.cons_append, mapGet_cons, if_neg hp]
      exact ih h

theorem mapGet_append_single_other (m : List (String × Nat)) (k k' : String)
    (v : Nat) (h : k' ≠ k) :
    mapGet (m ++ [(k, v)]) k' = mapGet m k' := by
  induction m with
  | nil =>
    rw [List.nil_append, mapGet_cons, if_neg (fun e : (k, v).1 = k' => h e.symm)]
  | cons p rest ih =>
    rw [List.cons_append, mapGet_cons, mapGet_cons, ih]

theorem mapGet_mapSet_self (m : List (String × Nat)) (k : String) (v : Nat) :
    mapGet (mapSet m k v) k = some v := by
  unfold mapSet
  by_cases h : (mapGet m k).isSome = true
  · rw [if_pos h]
    exact mapGet_replace_self m k v h
  · rw [if_neg h]
    exact mapGet_append_single_self m k v (Option.not_isSome_iff_eq_none.mp h)

theorem mapGet_mapSet_other (m : List (String × Nat)) (k k' : String)
    (v : Nat) (h : k' ≠ k) :
    mapGet (mapSet m k v) k' = mapGet m k' := by
  unfold mapSet
  by_cases hs : (mapGet m k).isSome = true
  · rw [if_pos hs]
    exact mapGet_replace_other m k k' v h
  · rw [if_neg hs]
    exact mapGet_append_single_other m k k' v h

theorem mapGet_mapDel_self (m : List (String × Nat)) (k : String) :
    mapGet (mapDel m k) k = none := by
  induction m with
  | nil => rfl
  | cons p rest ih =>
    rw [mapDel, List.filter_cons]
    by_cases hp : p.1 = k
    · rw [if_neg (by simpa using hp)]
      exact ih
    · rw [if_pos (by simpa using hp), mapGet_cons, if_neg hp]
      exact ih

theorem mapGet_mapDel_other (m : List (String × Nat)) (k k' : String)
    (h : k' ≠ k) :
    mapGet (mapDel m k) k' = mapGet m k' := by
  induction m with
  | nil => rfl
  | cons p rest ih =>
    rw [mapDel, List.filter_cons]
    by_cases hp : p.1 = k
    · have h3 : ¬ (p.1 = k') := by rw [hp]; exact fun e => h e.symm
      rw [if_neg (by simpa using hp), mapGet_cons, if_neg h3]
      exact ih
    · rw [if_pos (by simpa using hp), mapGet_cons, mapGet_cons]
      by_cases hp' : p.1 = k'
      · rw [if_pos hp', if_pos hp']
      · rw [if_neg hp', if_neg hp']
        exact ih

theorem mapDel_cons_eq_of_fresh (p : String × Nat)
    (rest : List (String × Nat)) (h : ∀ q ∈ rest, q.1 ≠ p.1) :
    mapDel (p :: rest) p.1 = rest := by
  rw [mapDel, List.filter_cons, if_neg (by simp)]
  exact List.filter_eq_self.mpr (fun q hq => by simpa using h q hq)

/-! ## Scheduler theorems -/

/-- The spec condition: the runner is running on another scheduler. -/
def runningElsewhere (self : Nat) (r : RunnerData) : Prop :=
  r.running = true ∧ ∃ o, r.sched = some o ∧ o ≠ self

/-- The spec condition under which `start_runner` must raise: the
runner is running on another scheduler, or a different runner instance
already holds its name in the map. -/
def startError (self : Nat) (w : World) (rid : Nat) : Prop :=
  runningElsewhere self (w.heap rid) ∨
  ∃ v, mapGet w.map (w.heap rid).name = some v ∧ v ≠ rid

theorem crossSched_iff (self : Nat) (r : RunnerData) :
    crossSched self r = true ↔ runningElsewhere self r := by
  unfold crossSched runningElsewhere
  cases hs : r.sched <;> simp [hs]

theorem nameConflict_iff (w : World) (rid : Nat) :
    nameConflict w rid = true ↔
      ∃ v, mapGet w.map (w.heap rid).name = some v ∧ v ≠ rid := by
  unfold nameConflict
  cases h : mapGet w.map (w.heap rid).name <;> simp [h]

/-- C3: `start_runner` raises (leaving the map and every runner
unchanged) exactly when the runner is running on another scheduler or
a different runner instance already holds its name; otherwise it
raises nothing, inserts the runner under its name, sets its
`scheduler` back-reference to this scheduler, leaves its other
attributes and every other runner and name untouched, and starts it. -/
theorem start_runner_spec (self : Nat) (w : World) (rid : Nat) :
    ((start_runner self w rid).err.isSome = true ↔ startError self w rid) ∧
    (startError self w rid →
      (start_runner self w rid).world = w ∧
      (start_runner self w rid).calls = []) ∧
    (¬ startError self w rid →
      (start_runner self w rid).err = none ∧
      mapGet (start_runner self w rid).world.map (w.heap rid).name =
        some rid ∧
      ((start_runner self w rid).world.heap rid).sched = some self ∧
      ((start_runner self w rid).world.heap rid).name = (w.heap rid).name ∧
      ((start_runner self w rid).world.heap rid).running =
        (w.heap rid).running ∧
      (∀ i, i ≠ rid → (start_runner self w rid).world.heap i = w.heap i) ∧
      (∀ k, k ≠ (w.heap rid).name →
        mapGet (start_runner self w rid).world.map k = mapGet w.map k) ∧
      (start_runner self w rid).calls = [RAction.startCall rid]) := by
  by_cases hc : crossSched self (w.heap rid) = true
  · have he : startError self w rid :=
      Or.inl ((crossSched_iff self (w.heap rid)).mp hc)
    refine ⟨⟨fun _ => he, fun _ => ?_⟩, fun _ => ?_, fun hn => absurd he hn⟩
    · simp [start_runner, hc]
    · constructor <;> simp [start_runner, hc]
  · by_cases hn : nameConflict w rid = true
    · have he : startError self w rid :=
        Or.inr ((nameConflict_iff w rid).mp hn)
      refine ⟨⟨fun _ => he, fun _ => ?_⟩, fun _ => ?_, fun hno => absurd he hno⟩
      · simp [start_runner, hc, hn]
      · constructor <;> simp [start_runner, hc, hn]
    · have he : ¬ startError self w rid := by
        intro hcase
        rcases hcase with hcase | hcase
        · exact hc ((crossSched_iff self (w.heap rid)).mpr hcase)
        · exact hn ((nameConflict_iff w rid).mpr hcase)
      refine ⟨⟨fun hsome => ?_, fun hcase => absurd hcase he⟩,
        fun hcase => absurd hcase he, fun _ => ?_⟩
      · have hz : (start_runner self w rid).err = none := by
          simp [start_runner, hc, hn]
        rw [hz] at hsome
        exact absurd hsome (by simp)
      · refine ⟨by simp [start_runner, hc, hn], ?_, ?_, ?_, ?_, ?_, ?_, ?_⟩
        · simp only [start_runner, hc, hn, if_false, Bool.false_eq_true]
          exact mapGet_mapSet_self w.map (w.heap rid).name rid
        · simp [start_runner, hc, hn]
        · simp [start_runner, hc, hn]
        · simp [start_runner, hc, hn]
        · intro i hi
          simp [start_runner, hc, hn, hi]
        · intro k hk
          simp only [start_runner, hc, hn, if_false, Bool.false_eq_true]
          exact mapGet_mapSet_other w.map (w.heap rid).name k rid hk
        · simp [start_runner, hc, hn]

/-- Witness for C3: a fresh runner named `a` is accepted, inserted and
started on scheduler `0` in a world whose map is empty. -/
theorem start_runner_spec_witness :
    let w : World := ⟨fun _ => ⟨"a", false, none⟩, []⟩
    mapGet (start_runner 0 w 7).world.map "a" = some 7 ∧
    ((start_runner 0 w 7).world.heap 7).sched = some 0 ∧
    (start_runner 0 w 7).calls = [RAction.startCall 7] := by
  refine ⟨?_, ?_, ?_⟩
  · exact ((start_runner_spec 0 ⟨fun _ => ⟨"a", false, none⟩, []⟩ 7).2.2
      (by simp [startError, runningElsewhere, mapGet])).2.1
  · exact ((start_runner_spec 0 ⟨fun _ => ⟨"a", false, none⟩, []⟩ 7).2.2
      (by simp [startError, runningElsewhere, mapGet])).2.2.1
  · exact ((start_runner_spec 0 ⟨fun _ => ⟨"a", false, none⟩, []⟩ 7).2.2
      (by simp [startError, runningElsewhere, mapGet])).2.2.2.2.2.2.2

/-- C5: when the runner is not running on another scheduler,
`stop_runner` raises nothing, calls `runner.stop()`, and deletes the
entry under the runner's name exactly when that entry is this very
runner; when a different runner holds the name (or the name is
absent), the map is left unchanged. -/
theorem stop_runner_spec (self : Nat) (w : World) (rid : Nat)
    (h : ¬ runningElsewhere self (w.heap rid)) :
    (stop_runner self w rid).err = none ∧
    (stop_runner self w rid).calls = [RAction.stopCall rid] ∧
    (mapGet w.map (w.heap rid).name = some rid →
      mapGet (stop_runner self w rid).world.map (w.heap rid).name = none ∧
      (∀ k, k ≠ (w.heap rid).name →
        mapGet (stop_runner self w rid).world.map k = mapGet w.map k)) ∧
    (mapGet w.map (w.heap rid).name ≠ some rid →
      (stop_runner self w rid).world.map = w.map) ∧
    (stop_runner self w rid).world.heap = w.heap := by
  have hc : ¬ crossSched self (w.heap rid) = true :=
    fun hc => h ((crossSched_iff self (w.heap rid)).mp hc)
  refine ⟨by simp [stop_runner, hc], by simp [stop_runner, hc], ?_, ?_, ?_⟩
  · intro hget
    constructor
    · simp only [stop_runner, hc, if_false, Bool.false_eq_true, hget, if_pos]
      exact mapGet_mapDel_self w.map (w.heap rid).name
    · intro k hk
      simp only [stop_runner, hc, if_false, Bool.false_eq_true, hget, if_pos]
      exact mapGet_mapDel_other w.map (w.heap rid).name k hk
  · intro hget
    simp [stop_runner, hc, hget]
  · simp [stop_runner, hc]

/-- Witness for C5: stopping runner `7` named `a` from a map holding
`a → 7` removes the entry. -/
theorem stop_runner_spec_witness :
    let w : World := ⟨fun _ => ⟨"a", true, some 0⟩, [("a", 7)]⟩
    mapGet (stop_runner 0 w 7).world.map "a" = none ∧
    (stop_runner 0 w 7).calls = [RAction.stopCall 7] := by
  refine ⟨?_, ?_⟩
  · exact (((stop_runner_spec 0 ⟨fun _ => ⟨"a", true, some 0⟩, [("a", 7)]⟩ 7
      (by simp [runningElsewhere])).2.2.1) (by simp [mapGet])).1
  · exact (stop_runner_spec 0 ⟨fun _ => ⟨"a", true, some 0⟩, [("a", 7)]⟩ 7
      (by simp [runningElsewhere])).2.1

/-- C6: on a `tempo_update` event the scheduler calls `reload()` and
`allow_interval_correction()` exactly on the runners currently in its
map. -/
theorem tempo_update_reload_spec (w : World) (rid : Nat) :
    (RAction.reloadCall rid ∈ schedHook w "tempo_update" ↔
      rid ∈ w.map.map Prod.snd) ∧
    (RAction.correctionCall rid ∈ schedHook w "tempo_update" ↔
      rid ∈ w.map.map Prod.snd) := by
  constructor <;>
    simp [schedHook, reload_runners, List.mem_flatMap]

/-- The induction core of `reset`: stopping a snapshot of the map
values, when names are unique, every entry points at a runner carrying
that name, and no entry is running on another scheduler, empties the
map, keeps the heap, and stops each runner once in order. -/
theorem stopAll_snapshot (self : Nat) (m : List (String × Nat))
    (hp : Nat → RunnerData) (acc : List RAction)
    (hkeys : (m.map Prod.fst).Nodup)
    (hname : ∀ p ∈ m, (hp p.2).name = p.1)
    (hsched : ∀ p ∈ m, crossSched self (hp p.2) = false) :
    stopAll self (m.map Prod.snd) ⟨hp, m⟩ acc =
      ⟨⟨hp, []⟩, acc ++ m.map (fun p => RAction.stopCall p.2), none⟩ := by
  induction m generalizing acc with
  | nil => simp [stopAll]
  | cons p rest ih =>
    have hfresh : ∀ q ∈ rest, q.1 ≠ p.1 := by
      intro q hq
      have := (List.nodup_cons.mp hkeys).1
      intro hcontra
      exact this (hcontra ▸ List.mem_map_of_mem Prod.fst hq)
    have hnm : (hp p.2).name = p.1 := hname p (List.mem_cons_self p rest)
    have hget : mapGet (p :: rest) (hp p.2).name = some p.2 := by
      rw [hnm, mapGet_cons, if_pos rfl]
    have hstop : stop_runner self ⟨hp, p :: rest⟩ p.2 =
        ⟨⟨hp, rest⟩, [RAction.stopCall p.2], none⟩ := by
      have hcs : ¬ crossSched self (hp p.2) = true := by
        rw [hsched p (List.mem_cons_self p rest)]
        simp
      simp only [stop_runner, hcs, if_false, Bool.false_eq_true, hget, if_pos]
      rw [hnm, mapDel_cons_eq_of_fresh p rest hfresh]
    rw [List.map_cons]
    show stopAll self (p.2 :: rest.map Prod.snd) ⟨hp, p :: rest⟩ acc = _
    rw [stopAll, hstop]
    simp only
    rw [ih (acc ++ [RAction.stopCall p.2])
      (List.nodup_cons.mp hkeys).2
      (fun q hq => hname q (List.mem_cons_of_mem p hq))
      (fun q hq => hsched q (List.mem_cons_of_mem p hq))]
    simp

/-- C9: when every runner in the map carries the name it is filed
under, names are unique, and none is running on another scheduler,
`reset()` raises nothing, calls `stop()` on every runner that was in
the map (in order), and leaves the map empty, so `get_runner` is
absent for every name. -/
theorem reset_spec (self : Nat) (w : World)
    (hkeys : (w.map.map Prod.fst).Nodup)
    (hname : ∀ p ∈ w.map, (w.heap p.2).name = p.1)
    (hsched : ∀ p ∈ w.map, crossSched self (w.heap p.2) = false) :
    (reset self w).err = none ∧
    (reset self w).world.map = [] ∧
    (∀ n, get_runner (reset self w).world n = none) ∧
    (reset self w).calls = w.map.map (fun p => RAction.stopCall p.2) := by
  have h := stopAll_snapshot self w.map w.heap [] hkeys hname hsched
  have hw : reset self w =
      ⟨⟨w.heap, []⟩, w.map.map (fun p => RAction.stopCall p.2), none⟩ := by
    rw [reset]
    simpa using h
  rw [hw]
  exact ⟨rfl, rfl, fun n => rfl, rfl⟩

/-- Witness for C9: resetting a scheduler holding runners `a → 1` and
`b → 2` empties the map and stops both. -/
theorem reset_spec_witness :
    let hp : Nat → RunnerData :=
      fun i => if i = 1 then ⟨"a", true, some 0⟩
               else if i = 2 then ⟨"b", true, some 0⟩
               else ⟨"z", false, none⟩
    let w : World := ⟨hp, [("a", 1), ("b", 2)]⟩
    (reset 0 w).world.map = [] ∧
    (reset 0 w).calls = [RAction.stopCall 1, RAction.stopCall 2] := by
  refine ⟨?_, ?_⟩
  · exact (reset_spec 0 _ (by simp)
      (by intro p hp; fin_cases hp <;> simp)
      (by intro p hp; fin_cases hp <;> simp [crossSched])).2.1
  · exact (reset_spec 0 _ (by simp)
      (by intro p hp; fin_cases hp <;> simp)
      (by intro p hp; fin_cases hp <;> simp [crossSched])).2.2.2

end Sardine
